import Mathlib

/-!
Verification of the Worktree Change Tracking & Aggregation Engine.

The definitions below are a shallow embedding of the repository's source:
- `src/types.ts` (data model),
- `src/unnamed/part_002` (file aggregation, worktree-list parsing, badges),
- `src/unnamed/part_003` (tracker service: scanning, pause state, persistence),
- `src/utils/gitDiffParser.ts` (diff-line parsing).

JavaScript `undefined` on optional boolean fields is modelled as `none : Option
Bool`, since strict (in)equality in the source distinguishes `undefined` from
`false`.  JavaScript `Map`s are modelled as insertion-ordered association lists.
-/

namespace AWT

/-- The three-way change kind of `TrackedFile.changeType` (src/types.ts). -/
inductive ChangeType where
  | added
  | modified
  | deleted
deriving DecidableEq, Repr

/-- Interface `TrackedFile` (src/types.ts).  The two optional booleans are
`Option Bool`: `none` is JavaScript `undefined`. -/
structure TrackedFile where
  relativePath : String
  worktreeName : String
  branch : String
  changeType : ChangeType
  uncommitted : Option Bool := none
  hasUncommittedOnTop : Option Bool := none
deriving DecidableEq, Repr

/-- JavaScript truthiness of an optional boolean field: only `true` is truthy
(`undefined` and `false` are falsy). -/
def truthy : Option Bool → Bool
  | some true => true
  | _ => false

/-- A JavaScript `Map<string, TrackedFile[]>`: an insertion-ordered association
list (JS maps iterate in insertion order and hold at most one entry per key). -/
abbrev AggMap := List (String × List TrackedFile)

/-- `Map.get`: value of the first entry with the given key. -/
def mapGet : AggMap → String → Option (List TrackedFile)
  | [], _ => none
  | e :: rest, k => if e.1 == k then some e.2 else mapGet rest k

/-- `Map.set`: replace the value in place if the key is present, else append. -/
def mapSet : AggMap → String → List TrackedFile → AggMap
  | [], k, v => [(k, v)]
  | e :: rest, k, v => if e.1 == k then (k, v) :: rest else e :: mapSet rest k v

/-- `Map.has`. -/
def mapHas (m : AggMap) (k : String) : Bool :=
  (mapGet m k).isSome

theorem mapGet_mapSet_self (m : AggMap) (k : String) (v : List TrackedFile) :
    mapGet (mapSet m k v) k = some v := by
  induction m with
  | nil => simp [mapGet, mapSet]
  | cons e rest ih =>
    by_cases h : e.1 == k
    · simp [mapGet, mapSet, h]
    · simp only [mapSet, h, Bool.false_eq_true, if_false, mapGet, ih]

theorem mapGet_mapSet_ne (m : AggMap) (k k' : String) (v : List TrackedFile)
    (h : k ≠ k') : mapGet (mapSet m k v) k' = mapGet m k' := by
  induction m with
  | nil => simp [mapGet, mapSet, h]
  | cons e rest ih =>
    by_cases he : e.1 == k
    · have : ¬ (k == k') := by simpa using h
      simp only [mapSet, he, if_true, mapGet, this, Bool.false_eq_true, if_false]
      have : e.1 = k := by simpa using he
      simp [mapGet, this, fun hh => h (by simpa using hh)]
    · simp [mapSet, he, mapGet, ih]

/-- `Array.prototype.findIndex` (returning `none` instead of `-1`). -/
def findIndex (p : α → Bool) : List α → Option Nat
  | [] => none
  | a :: l => if p a then some 0 else (findIndex p l).map (· + 1)

/-- One iteration of the inner loop of `aggregateFiles`
(src/unnamed/part_002, lines 67-84): look up the bucket for the record's path,
look for a prior record of the same worktree, replace it only when the incoming
record is not purely uncommitted, else append. -/
def aggregateStep (m : AggMap) (file : TrackedFile) : AggMap :=
  let existing := (mapGet m file.relativePath).getD []
  let newBucket :=
    match findIndex (fun f => f.worktreeName == file.worktreeName) existing with
    | some i => if truthy file.uncommitted then existing else existing.set i file
    | none => existing ++ [file]
  mapSet m file.relativePath newBucket

/-- `aggregateFiles` (src/unnamed/part_002, lines 64-88). -/
def aggregateFiles (fileGroups : List (List TrackedFile)) : AggMap :=
  fileGroups.foldl (fun m files => files.foldl aggregateStep m) []

/-- Recursive characterization of the bucket update performed by
`aggregateStep` (find first record of the same worktree; replace it only if the
incoming record is not purely uncommitted; append when absent). -/
def updateBucket (file : TrackedFile) : List TrackedFile → List TrackedFile
  | [] => [file]
  | g :: rest =>
    if g.worktreeName == file.worktreeName then
      (if truthy file.uncommitted then g else file) :: rest
    else g :: updateBucket file rest

theorem updateBucket_eq (file : TrackedFile) (l : List TrackedFile) :
    (match findIndex (fun f => f.worktreeName == file.worktreeName) l with
      | some i => if truthy file.uncommitted then l else l.set i file
      | none => l ++ [file]) = updateBucket file l := by
  induction l with
  | nil => simp [findIndex, updateBucket]
  | cons g rest ih =>
    by_cases hg : g.worktreeName == file.worktreeName
    · by_cases hu : truthy file.uncommitted <;>
        simp [findIndex, hg, updateBucket, hu]
    · simp only [findIndex, hg, Bool.false_eq_true, if_false, updateBucket]
      cases hfi : findIndex (fun f => f.worktreeName == file.worktreeName) rest with
      | none => simpa [hfi] using congrArg (g :: ·) (by simpa [hfi] using ih)
      | some i =>
        by_cases hu : truthy file.uncommitted <;>
          simpa [hfi, hu, List.set] using congrArg (g :: ·) (by simpa [hfi, hu] using ih)

theorem aggregateStep_eq (m : AggMap) (file : TrackedFile) :
    aggregateStep m file =
      mapSet m file.relativePath
        (updateBucket file ((mapGet m file.relativePath).getD [])) := by
  unfold aggregateStep
  rw [← updateBucket_eq]

/-- The records of the aggregation input that concern a fixed (path, worktree)
pair, in processing order. -/
def occurrences (l : List TrackedFile) (p w : String) : List TrackedFile :=
  l.filter (fun f => f.relativePath == p && f.worktreeName == w)

/-- How a prior record for a (path, worktree) pair is combined with an incoming
one: a purely-uncommitted incoming record never replaces an existing record. -/
def supersede : Option TrackedFile → TrackedFile → Option TrackedFile
  | none, f => some f
  | some g, f => if truthy f.uncommitted then some g else some f

/-- The records of the aggregated bucket of a path that belong to a fixed
worktree. -/
def bucketFilter (m : AggMap) (p w : String) : List TrackedFile :=
  ((mapGet m p).getD []).filter (fun f => f.worktreeName == w)

theorem filter_updateBucket_same (file : TrackedFile) (l : List TrackedFile)
    (w : String) (hw : (file.worktreeName == w) = true) (o : Option TrackedFile)
    (h : l.filter (fun g => g.worktreeName == w) = o.toList) :
    (updateBucket file l).filter (fun g => g.worktreeName == w) =
      (supersede o file).toList := by
  induction l generalizing o with
  | nil =>
    cases o with
    | none => simp [updateBucket, supersede, hw]
    | some r => simp at h
  | cons g rest ih =>
    by_cases hg : g.worktreeName == file.worktreeName
    · have hgw : (g.worktreeName == w) = true := by
        have h1 : g.worktreeName = file.worktreeName := by simpa using hg
        have h2 : file.worktreeName = w := by simpa using hw
        simp [h1, h2]
      rw [List.filter_cons_of_pos (by simpa using hgw)] at h
      cases o with
      | none => simp at h
      | some r =>
        have hr : g = r ∧ rest.filter (fun g => g.worktreeName == w) = [] := by
          simpa using h
        obtain ⟨hgr, hrest⟩ := hr
        subst hgr
        by_cases hu : truthy file.uncommitted
        · simp [updateBucket, hg, hu, supersede, hgw, hrest]
        · simp [updateBucket, hg, hu, supersede, hw, hrest]
    · simp only [updateBucket, hg, Bool.false_eq_true, if_false]
      by_cases hgw : (g.worktreeName == w) = true
      · exfalso
        have h1 : g.worktreeName = w := by simpa using hgw
        have h2 : file.worktreeName = w := by simpa using hw
        exact hg (by simp [h1, h2])
      · rw [List.filter_cons_of_neg (by simpa using hgw)] at h
        rw [List.filter_cons_of_neg (by simpa using hgw)]
        exact ih o h

theorem filter_updateBucket_other (file : TrackedFile) (l : List TrackedFile)
    (w : String) (hw : (file.worktreeName == w) = false) :
    (updateBucket file l).filter (fun g => g.worktreeName == w) =
      l.filter (fun g => g.worktreeName == w) := by
  induction l with
  | nil => simp [updateBucket, hw]
  | cons g rest ih =>
    by_cases hg : g.worktreeName == file.worktreeName
    · have hgw : (g.worktreeName == w) = false := by
        have h1 : g.worktreeName = file.worktreeName := by simpa using hg
        simpa [h1] using hw
      by_cases hu : truthy file.uncommitted <;>
        simp [updateBucket, hg, hu, hgw, hw]
    · simp only [updateBucket, hg, Bool.false_eq_true, if_false]
      by_cases hgw : (g.worktreeName == w) = true
      · rw [List.filter_cons_of_pos (by simpa using hgw),
          List.filter_cons_of_pos (by simpa using hgw), ih]
      · rw [List.filter_cons_of_neg (by simpa using hgw),
          List.filter_cons_of_neg (by simpa using hgw), ih]

theorem aggregateStep_bucketFilter (m : AggMap) (file : TrackedFile)
    (p w : String) (o : Option TrackedFile) (h : bucketFilter m p w = o.toList) :
    bucketFilter (aggregateStep m file) p w =
      (if (file.relativePath == p && file.worktreeName == w) = true
        then supersede o file else o).toList := by
  rw [aggregateStep_eq]
  by_cases hp : file.relativePath = p
  · subst hp
    unfold bucketFilter
    rw [mapGet_mapSet_self]
    by_cases hww : (file.worktreeName == w) = true
    · simp only [Option.getD_some, beq_self_eq_true, hww, Bool.and_true, if_true]
      exact filter_updateBucket_same file _ w hww o h
    · have hww' : (file.worktreeName == w) = false := by
        simpa using hww
      simp only [beq_self_eq_true, hww', Bool.and_false, Bool.false_eq_true, if_false,
        Option.getD_some]
      rw [filter_updateBucket_other file _ w hww']
      exact h
  · unfold bucketFilter
    rw [mapGet_mapSet_ne _ _ _ _ hp]
    have : (file.relativePath == p) = false := by simpa using hp
    simpa [this] using h

theorem foldl_aggregateStep_bucketFilter (l : List TrackedFile) (m : AggMap)
    (p w : String) (o : Option TrackedFile) (h : bucketFilter m p w = o.toList) :
    bucketFilter (l.foldl aggregateStep m) p w =
      ((occurrences l p w).foldl supersede o).toList := by
  induction l generalizing m o with
  | nil => simpa [occurrences]
  | cons f rest ih =>
    rw [List.foldl_cons]
    by_cases hf : (f.relativePath == p && f.worktreeName == w) = true
    · have hstep := aggregateStep_bucketFilter m f p w o h
      rw [if_pos hf] at hstep
      have := ih (aggregateStep m f) (supersede o f) hstep
      rw [this]
      unfold occurrences
      rw [List.filter_cons_of_pos (by simpa using hf), List.foldl_cons]
    · have hstep := aggregateStep_bucketFilter m f p w o h
      rw [if_neg hf] at hstep
      have := ih (aggregateStep m f) o hstep
      rw [this]
      unfold occurrences
      rw [List.filter_cons_of_neg (by simpa using hf)]

theorem aggregateFiles_eq_foldl (fileGroups : List (List TrackedFile)) :
    aggregateFiles fileGroups = fileGroups.flatten.foldl aggregateStep [] := by
  unfold aggregateFiles
  rw [List.foldl_flatten]

theorem aggregateFiles_bucketFilter (fileGroups : List (List TrackedFile))
    (p w : String) :
    bucketFilter (aggregateFiles fileGroups) p w =
      ((occurrences fileGroups.flatten p w).foldl supersede none).toList := by
  rw [aggregateFiles_eq_foldl]
  exact foldl_aggregateStep_bucketFilter _ _ _ _ none (by simp [bucketFilter, mapGet])

/-- C1: if the flattened aggregation input contains exactly two records for a
(path, worktree) pair, one purely uncommitted and one committed, in either
order, then the path's bucket of `aggregateFiles` contains exactly one record
for that worktree, and it is the committed one. -/
theorem aggregateFiles_committed_supersedes
    (fileGroups : List (List TrackedFile)) (p w : String) (u c : TrackedFile)
    (hu : truthy u.uncommitted = true) (hc : truthy c.uncommitted = false)
    (hocc : occurrences fileGroups.flatten p w = [u, c] ∨
      occurrences fileGroups.flatten p w = [c, u]) :
    bucketFilter (aggregateFiles fileGroups) p w = [c] := by
  rw [aggregateFiles_bucketFilter]
  rcases hocc with h | h <;> rw [h] <;> simp [supersede, hu, hc]

/-- A purely-uncommitted record, used to instantiate claim theorems. -/
def exUncRec : TrackedFile :=
  { relativePath := "src/a.ts", worktreeName := "wt1", branch := "feat",
    changeType := ChangeType.modified, uncommitted := some true,
    hasUncommittedOnTop := none }

/-- A committed record for the same (path, worktree) pair as `exUncRec`. -/
def exComRec : TrackedFile :=
  { relativePath := "src/a.ts", worktreeName := "wt1", branch := "feat",
    changeType := ChangeType.modified, uncommitted := none,
    hasUncommittedOnTop := none }

/-- Witness for C1 at a concrete input: aggregating the uncommitted record and
then the committed one leaves exactly the committed record in the bucket. -/
theorem aggregateFiles_committed_supersedes_witness :
    truthy exUncRec.uncommitted = true ∧ truthy exComRec.uncommitted = false ∧
      bucketFilter (aggregateFiles [[exUncRec], [exComRec]]) "src/a.ts" "wt1" =
        [exComRec] :=
  ⟨by decide, by decide,
    aggregateFiles_committed_supersedes [[exUncRec], [exComRec]] "src/a.ts" "wt1"
      exUncRec exComRec (by decide) (by decide) (Or.inl (by decide))⟩

/-- The four-field record comparison inside the loop of `trackedFilesEqual`
(src/unnamed/part_002, lines 145-148): `branch` and `relativePath` are not
compared. -/
def recordFieldsEq (x y : TrackedFile) : Bool :=
  x.worktreeName == y.worktreeName && x.changeType == y.changeType &&
    x.uncommitted == y.uncommitted && x.hasUncommittedOnTop == y.hasUncommittedOnTop

/-- `trackedFilesEqual` (src/unnamed/part_002, lines 142-153): length check
followed by a positional comparison of the four compared fields. -/
def trackedFilesEqual (a b : List TrackedFile) : Bool :=
  a.length == b.length && (a.zip b).all (fun xy => recordFieldsEq xy.1 xy.2)

/-- `getChangedPaths` (src/unnamed/part_002, lines 115-137): the contents of
the returned set, as the list of paths added by the two passes (new-or-modified
paths from the new map, then removed paths from the old map). -/
def getChangedPaths (oldState newState : AggMap) : List String :=
  (newState.filter (fun e =>
      match mapGet oldState e.1 with
      | none => true
      | some oldFiles => !(trackedFilesEqual oldFiles e.2))).map Prod.fst
    ++ (oldState.filter (fun e => !(mapHas newState e.1))).map Prod.fst

/-- A JavaScript `Map` holds at most one entry per key; association lists
representing one satisfy this predicate. -/
def keysNodup (m : AggMap) : Prop :=
  (m.map Prod.fst).Nodup

/-- Spec-side equality of two records on the four compared fields
(`worktreeName`, `changeType`, `uncommitted`, `hasUncommittedOnTop`). -/
def recordFieldsEqProp (u v : TrackedFile) : Prop :=
  u.worktreeName = v.worktreeName ∧ u.changeType = v.changeType ∧
    u.uncommitted = v.uncommitted ∧ u.hasUncommittedOnTop = v.hasUncommittedOnTop

/-- Lifts `recordFieldsEqProp` to optional records; absent positions never
agree. -/
def optRecordEq : Option TrackedFile → Option TrackedFile → Prop
  | some u, some v => recordFieldsEqProp u v
  | _, _ => False

/-- Spec-side positional sequence equality: same length, and record `i` of the
first sequence equals record `i` of the second on every compared field. -/
def posEq (a b : List TrackedFile) : Prop :=
  a.length = b.length ∧ ∀ i, i < a.length → optRecordEq a[i]? b[i]?

theorem recordFieldsEq_iff (x y : TrackedFile) :
    recordFieldsEq x y = true ↔ recordFieldsEqProp x y := by
  simp [recordFieldsEq, recordFieldsEqProp, and_assoc]

theorem posEq_cons (x y : TrackedFile) (a b : List TrackedFile) :
    posEq (x :: a) (y :: b) ↔ recordFieldsEqProp x y ∧ posEq a b := by
  constructor
  · rintro ⟨hlen, hall⟩
    refine ⟨?_, ?_, ?_⟩
    · have h0 := hall 0 (Nat.succ_pos _)
      simpa [optRecordEq] using h0
    · simpa using hlen
    · intro i hi
      have := hall (i + 1) (by simpa using hi)
      simpa using this
  · rintro ⟨hxy, hlen, hall⟩
    refine ⟨by simpa using hlen, ?_⟩
    intro i hi
    match i with
    | 0 => simpa [optRecordEq] using hxy
    | j + 1 =>
      have hj : j < a.length := by simpa using hi
      simpa using hall j hj

theorem trackedFilesEqual_iff (a b : List TrackedFile) :
    trackedFilesEqual a b = true ↔ posEq a b := by
  induction a generalizing b with
  | nil =>
    cases b with
    | nil =>
      constructor
      · intro _
        exact ⟨rfl, fun i hi => absurd hi (Nat.not_lt_zero i)⟩
      · intro _
        rfl
    | cons y b => simp [trackedFilesEqual, posEq]
  | cons x a ih =>
    cases b with
    | nil => simp [trackedFilesEqual, posEq]
    | cons y b =>
      rw [posEq_cons, ← ih, ← recordFieldsEq_iff]
      simp only [trackedFilesEqual, List.length_cons, List.zip_cons_cons,
        List.all_cons, Bool.and_eq_true, beq_iff_eq, Nat.add_right_cancel_iff]
      tauto

theorem mapHas_of_mem (m : AggMap) (k : String) (v : List TrackedFile)
    (h : (k, v) ∈ m) : mapHas m k = true := by
  induction m with
  | nil => simp at h
  | cons e rest ih =>
    by_cases he : e.1 == k
    · simp [mapHas, mapGet, he]
    · rcases List.mem_cons.mp h with h1 | h2
      · exact absurd (by simp [← h1]) he
      · simpa [mapHas, mapGet, he] using ih h2

theorem mem_of_mapGet_eq_some (m : AggMap) (k : String) (v : List TrackedFile)
    (h : mapGet m k = some v) : (k, v) ∈ m := by
  induction m with
  | nil => simp [mapGet] at h
  | cons e rest ih =>
    by_cases he : e.1 == k
    · simp only [mapGet, he, if_true, Option.some.injEq] at h
      have h1 : e.1 = k := by simpa using he
      have : e = (k, v) := by
        cases e
        simp_all
      simp [this]
    · simp only [mapGet, he, Bool.false_eq_true, if_false] at h
      exact List.mem_cons_of_mem _ (ih h)

theorem mapGet_eq_some_of_mem (m : AggMap) (k : String) (v : List TrackedFile)
    (hnd : keysNodup m) (h : (k, v) ∈ m) : mapGet m k = some v := by
  induction m with
  | nil => simp at h
  | cons e rest ih =>
    have hnd0 : (e.1 :: rest.map Prod.fst).Nodup := hnd
    have hnd' : keysNodup rest := (List.nodup_cons.mp hnd0).2
    have hnotin : e.1 ∉ rest.map Prod.fst := (List.nodup_cons.mp hnd0).1
    rcases List.mem_cons.mp h with h1 | h2
    · simp [mapGet, ← h1]
    · by_cases he : e.1 == k
      · exfalso
        have h1 : e.1 = k := by simpa using he
        exact hnotin (by
          rw [h1]
          exact List.mem_map.mpr ⟨(k, v), h2, rfl⟩)
      · simpa [mapGet, he] using ih hnd' h2

/-- C3: for maps with unique keys (as JavaScript maps are), `getChangedPaths`
returns exactly the paths that are new, removed, or whose record sequences
fail the positional four-field equality; no unchanged path appears. -/
theorem getChangedPaths_spec (oldState newState : AggMap)
    (hnew : keysNodup newState) (p : String) :
    p ∈ getChangedPaths oldState newState ↔
      ((mapHas newState p = true ∧ mapHas oldState p = false) ∨
       (mapHas oldState p = true ∧ mapHas newState p = false) ∨
       (∃ a b, mapGet oldState p = some a ∧ mapGet newState p = some b ∧
         ¬ posEq a b)) := by
  have hA : p ∈ (newState.filter (fun e =>
        match mapGet oldState e.1 with
        | none => true
        | some oldFiles => !(trackedFilesEqual oldFiles e.2))).map Prod.fst ↔
      ∃ v, mapGet newState p = some v ∧
        (match mapGet oldState p with
          | none => true
          | some oldFiles => !(trackedFilesEqual oldFiles v)) = true := by
    constructor
    · intro hp
      obtain ⟨e, he, hep⟩ := List.mem_map.mp hp
      obtain ⟨hmem, hq⟩ := List.mem_filter.mp he
      refine ⟨e.2, ?_, ?_⟩
      · exact mapGet_eq_some_of_mem _ _ _ hnew (by rwa [← hep])
      · rwa [← hep]
    · rintro ⟨v, hv, hq⟩
      exact List.mem_map.mpr
        ⟨(p, v), List.mem_filter.mpr ⟨mem_of_mapGet_eq_some _ _ _ hv, hq⟩, rfl⟩
  have hB : p ∈ (oldState.filter (fun e => !(mapHas newState e.1))).map Prod.fst ↔
      mapHas oldState p = true ∧ mapHas newState p = false := by
    constructor
    · intro hp
      obtain ⟨e, he, hep⟩ := List.mem_map.mp hp
      obtain ⟨hmem, hq⟩ := List.mem_filter.mp he
      constructor
      · exact mapHas_of_mem _ _ e.2 (by rwa [← hep])
      · rw [← hep]
        simpa using hq
    · rintro ⟨h1, h2⟩
      obtain ⟨v, hv⟩ := Option.isSome_iff_exists.mp h1
      exact List.mem_map.mpr
        ⟨(p, v), List.mem_filter.mpr
          ⟨mem_of_mapGet_eq_some _ _ _ hv, by simp [h2]⟩, rfl⟩
  unfold getChangedPaths
  rw [List.mem_append, hA, hB]
  cases hn : mapGet newState p with
  | none =>
    simp [mapHas, hn]
  | some b =>
    cases ho : mapGet oldState p with
    | none =>
      simp [mapHas, hn, ho]
    | some a =>
      constructor
      · rintro (⟨v, hv, hq⟩ | ⟨h1, h2⟩)
        · have hbv : b = v := by simpa using hv
          have hq' : (!(trackedFilesEqual a b)) = true := by rw [hbv]; exact hq
          refine Or.inr (Or.inr ⟨a, b, rfl, rfl, ?_⟩)
          rw [← trackedFilesEqual_iff]
          simpa using hq'
        · exact absurd h2 (by simp [mapHas, hn])
      · rintro (⟨h1, h2⟩ | ⟨h1, h2⟩ | ⟨a', b', ha', hb', hne⟩)
        · exact absurd h2 (by simp [mapHas, ho])
        · exact absurd h2 (by simp [mapHas, hn])
        · have ha2 : a = a' := by simpa using ha'
          have hb2 : b = b' := by simpa using hb'
          refine Or.inl ⟨b, rfl, ?_⟩
          show (!(trackedFilesEqual a b)) = true
          rw [← trackedFilesEqual_iff] at hne
          rw [ha2, hb2]
          simpa using hne

/-- Witness for C3 at a concrete input: a path present only in the new map is
reported as changed. -/
theorem getChangedPaths_spec_witness :
    "src/a.ts" ∈ getChangedPaths [] [("src/a.ts", [exComRec])] :=
  (getChangedPaths_spec [] [("src/a.ts", [exComRec])]
    (by simp [keysNodup]) "src/a.ts").mpr
    (Or.inl ⟨by decide, by decide⟩)

/-- C10: if two maps have the same keys and positionally agreeing record
sequences on the four compared fields, `getChangedPaths` is empty, whatever the
`branch` and `relativePath` fields contain. -/
theorem getChangedPaths_ignores_other_fields (oldState newState : AggMap)
    (hnew : keysNodup newState)
    (hkeys : ∀ p, mapHas oldState p = mapHas newState p)
    (hagree : ∀ p a b, mapGet oldState p = some a → mapGet newState p = some b →
      posEq a b) :
    getChangedPaths oldState newState = [] := by
  unfold getChangedPaths
  rw [List.append_eq_nil]
  constructor
  · rw [List.map_eq_nil_iff, List.filter_eq_nil_iff]
    intro e he
    have hv : mapGet newState e.1 = some e.2 := mapGet_eq_some_of_mem _ _ _ hnew he
    have h1 : mapHas oldState e.1 = true := by
      rw [hkeys e.1]
      simp [mapHas, hv]
    obtain ⟨a, ha⟩ := Option.isSome_iff_exists.mp h1
    have hpos := hagree e.1 a e.2 ha hv
    rw [← trackedFilesEqual_iff] at hpos
    simp [ha, hpos]
  · rw [List.map_eq_nil_iff, List.filter_eq_nil_iff]
    intro e he
    have h1 : mapHas oldState e.1 = true := mapHas_of_mem _ _ e.2 he
    have h2 : mapHas newState e.1 = true := by rw [← hkeys e.1]; exact h1
    simp [h2]

/-- A committed record agreeing with `exComRec` on the four compared fields but
carrying a different branch. -/
def exComRecOtherBranch : TrackedFile :=
  { relativePath := "src/a.ts", worktreeName := "wt1", branch := "other",
    changeType := ChangeType.modified, uncommitted := none,
    hasUncommittedOnTop := none }

/-- Witness for C10 at a concrete input: maps differing only in a record's
branch produce no changed paths. -/
theorem getChangedPaths_ignores_other_fields_witness :
    getChangedPaths [("src/a.ts", [exComRec])] [("src/a.ts", [exComRecOtherBranch])] = [] := by
  refine getChangedPaths_ignores_other_fields _ _ (by simp [keysNodup]) ?_ ?_
  · intro p
    by_cases h : ("src/a.ts" == p) = true <;> simp [mapHas, mapGet, h]
  · intro p a b ha hb
    by_cases h : ("src/a.ts" == p) = true
    · simp only [mapGet, h, if_true, Option.some.injEq] at ha hb
      subst ha
      subst hb
      refine ⟨rfl, ?_⟩
      intro i hi
      have hi0 : i = 0 := by simpa using hi
      subst hi0
      exact ⟨rfl, rfl, rfl, rfl⟩
    · simp [mapGet, h] at ha

/-- `generateBadge` (src/unnamed/part_002, lines 242-271): derive the compact
decoration code from a path's record list and the user-modified flag. -/
def generateBadge (worktrees : List TrackedFile) (userModified : Bool) :
    Option String :=
  let count := worktrees.length
  if count == 0 then none
  else if userModified then some "!W"
  else if count > 1 then some ("W" ++ toString count)
  else if worktrees.any (fun w => truthy w.uncommitted || truthy w.hasUncommittedOnTop)
    then some "W*"
  else some "W"

/-- C5: `generateBadge` implements the stated priority order, highest first:
no records → no badge; user-modified → "!W"; several records → "W" plus the
count; a single record with uncommitted work (directly or on top) → "W*";
otherwise → "W". -/
theorem generateBadge_priority (worktrees : List TrackedFile) (userModified : Bool) :
    (worktrees = [] → generateBadge worktrees userModified = none) ∧
    (worktrees ≠ [] → userModified = true →
      generateBadge worktrees userModified = some "!W") ∧
    (userModified = false → 1 < worktrees.length →
      generateBadge worktrees userModified = some ("W" ++ toString worktrees.length)) ∧
    (userModified = false → worktrees.length = 1 →
      (∃ w ∈ worktrees, truthy w.uncommitted = true ∨ truthy w.hasUncommittedOnTop = true) →
      generateBadge worktrees userModified = some "W*") ∧
    (userModified = false → worktrees.length = 1 →
      (∀ w ∈ worktrees, truthy w.uncommitted = false ∧ truthy w.hasUncommittedOnTop = false) →
      generateBadge worktrees userModified = some "W") := by
  refine ⟨?_, ?_, ?_, ?_, ?_⟩
  · intro h
    subst h
    rfl
  · intro hne hu
    subst hu
    have hlen : (worktrees.length == 0) = false := by
      simp [List.length_eq_zero, hne]
    simp [generateBadge, hlen]
  · intro hu hlen
    subst hu
    have h0 : (worktrees.length == 0) = false := by
      rw [beq_eq_false_iff_ne]
      omega
    simp only [generateBadge, h0, Bool.false_eq_true, if_false, hlen, if_true]
  · intro hu hlen hex
    subst hu
    have h0 : (worktrees.length == 0) = false := by simp [hlen]
    have h1 : ¬ (1 < worktrees.length) := by omega
    have hany : worktrees.any
        (fun w => truthy w.uncommitted || truthy w.hasUncommittedOnTop) = true := by
      rw [List.any_eq_true]
      obtain ⟨w, hw, hcase⟩ := hex
      exact ⟨w, hw, by rcases hcase with h | h <;> simp [h]⟩
    simp [generateBadge, h0, h1, hany]
  · intro hu hlen hall
    subst hu
    have h0 : (worktrees.length == 0) = false := by simp [hlen]
    have h1 : ¬ (1 < worktrees.length) := by omega
    have hany : worktrees.any
        (fun w => truthy w.uncommitted || truthy w.hasUncommittedOnTop) = false := by
      rw [List.any_eq_false]
      intro w hw
      simp [(hall w hw).1, (hall w hw).2]
    simp [generateBadge, h0, h1, hany]

/-- Witness for C5 at concrete inputs: every priority tier is exercised. -/
theorem generateBadge_priority_witness :
    generateBadge [] false = none ∧
    generateBadge [exComRec] true = some "!W" ∧
    generateBadge [exComRec, exComRecOtherBranch, exUncRec] false = some "W3" ∧
    generateBadge [exUncRec] false = some "W*" ∧
    generateBadge [exComRec] false = some "W" :=
  ⟨(generateBadge_priority [] false).1 rfl,
   (generateBadge_priority [exComRec] true).2.1 (by decide) rfl,
   (generateBadge_priority [exComRec, exComRecOtherBranch, exUncRec] false).2.2.1
     rfl (by decide),
   (generateBadge_priority [exUncRec] false).2.2.2.1 rfl rfl
     ⟨exUncRec, by decide, Or.inl (by decide)⟩,
   (generateBadge_priority [exComRec] false).2.2.2.2 rfl rfl
     (by intro w hw; simp at hw; subst hw; exact ⟨rfl, rfl⟩)⟩

/-- C9 (code bug): with ten records and no user modification the badge is
"W10", a three-character string, contradicting the documented two-character
limit. -/
theorem generateBadge_three_characters :
    generateBadge (List.replicate 10 exComRec) false = some "W10" ∧
      "W10".length = 3 := by
  constructor
  · rfl
  · rfl

/-- The characters matched by JavaScript `\s` and removed by `String.trim`. -/
def isJsWhitespace (c : Char) : Bool :=
  c == ' ' || c == '\t' || c == '\n' || c == '\x0b' || c == '\x0c' || c == '\r' ||
    c == '\u00a0' || c == '\u1680' ||
    (0x2000 ≤ c.toNat && c.toNat ≤ 0x200a) ||
    c == '\u2028' || c == '\u2029' || c == '\u202f' || c == '\u205f' ||
    c == '\u3000' || c == '\ufeff'

/-- JavaScript `String.prototype.trim`. -/
def jsTrim (l : List Char) : List Char :=
  ((l.dropWhile isJsWhitespace).reverse.dropWhile isJsWhitespace).reverse

/-- Splitting on the regular expression `\r?\n`: at each position a `\r\n`
pair or a lone `\n` separates; a lone `\r` is ordinary text. -/
def splitLinesAux : List Char → List Char → List (List Char)
  | [], acc => [acc.reverse]
  | '\r' :: '\n' :: rest, acc => acc.reverse :: splitLinesAux rest []
  | '\n' :: rest, acc => acc.reverse :: splitLinesAux rest []
  | c :: rest, acc => splitLinesAux rest (c :: acc)

/-- JavaScript `split(/\r?\n/)`. -/
def splitLines (l : List Char) : List (List Char) :=
  splitLinesAux l []

/-- The status letters accepted by the diff-line pattern `^([AMDRC])\t(.+)$`
(src/utils/gitDiffParser.ts, line 20). -/
def isDiffStatusChar (c : Char) : Bool :=
  c == 'A' || c == 'M' || c == 'D' || c == 'R' || c == 'C'

/-- The characters matched by `.` in a JavaScript regular expression without
the `s` flag: anything but a line terminator. -/
def isRegexDotChar (c : Char) : Bool :=
  !(c == '\n' || c == '\r' || c == '\u2028' || c == '\u2029')

/-- Matching a line against `^([AMDRC])\t(.+)$`: a status letter, a tab, and a
non-empty remainder of dot-matchable characters. -/
def matchDiffLine : List Char → Option (Char × List Char)
  | c :: '\t' :: rest =>
    if isDiffStatusChar c && !rest.isEmpty && rest.all isRegexDotChar then
      some (c, rest)
    else none
  | _ => none

/-- The `switch` on the status letter (src/utils/gitDiffParser.ts, lines
25-38): `A` is added, `D` is deleted, everything else is modified. -/
def statusToChangeType (c : Char) : ChangeType :=
  if c == 'A' then ChangeType.added
  else if c == 'D' then ChangeType.deleted
  else ChangeType.modified

/-- The record pushed for one matching line of `parseGitDiffOutput`
(src/utils/gitDiffParser.ts, lines 21-47); `none` for a non-matching line.
`uncommitted || undefined` makes the flag `true` or absent, never `false`. -/
def lineToRecord (worktreeName branch : String) (uncommitted : Bool)
    (line : List Char) : Option TrackedFile :=
  match matchDiffLine line with
  | some sr =>
    some { relativePath := String.mk sr.2, worktreeName := worktreeName,
           branch := branch, changeType := statusToChangeType sr.1,
           uncommitted := if uncommitted then some true else none,
           hasUncommittedOnTop := none }
  | none => none

/-- `parseGitDiffOutput` (src/utils/gitDiffParser.ts, lines 9-51): trim, split
into lines, drop empty lines, convert each matching line to a record. -/
def parseGitDiffOutput (output worktreeName branch : String)
    (uncommitted : Bool) : List TrackedFile :=
  ((splitLines (jsTrim output.data)).filter (fun l => 0 < l.length)).filterMap
    (lineToRecord worktreeName branch uncommitted)

/-- C4 counterexample: a line whose status letter is not one of A, M, D, R, C
fails the pattern and produces no record at all, rather than a Modified
record; sibling lines are still parsed. -/
theorem parseGitDiffOutput_unrecognized_letter_dropped :
    parseGitDiffOutput "X\tfoo.txt" "wt1" "feat" false = [] ∧
      parseGitDiffOutput "A\ta.txt\nX\tfoo.txt\nD\tb.txt" "wt1" "feat" false =
        [{ relativePath := "a.txt", worktreeName := "wt1", branch := "feat",
           changeType := ChangeType.added, uncommitted := none,
           hasUncommittedOnTop := none },
         { relativePath := "b.txt", worktreeName := "wt1", branch := "feat",
           changeType := ChangeType.deleted, uncommitted := none,
           hasUncommittedOnTop := none }] := by
  constructor <;> rfl

/-- C4 amended: every line consisting of a recognized status letter (A, M, D,
R or C), a tab, and a non-empty path yields exactly one record, with kind
Added for A, Deleted for D and Modified for M, R and C; every other line —
including one with an unrecognized status letter — is skipped, and the
output is the per-line records of the surviving lines in order, so skipped
lines never affect sibling lines. -/
theorem parseGitDiffOutput_letter_mapping (worktreeName branch : String)
    (uncommitted : Bool) :
    (∀ (c : Char) (path : List Char), isDiffStatusChar c = true →
      path ≠ [] → path.all isRegexDotChar = true →
      lineToRecord worktreeName branch uncommitted (c :: '\t' :: path) =
        some { relativePath := String.mk path, worktreeName := worktreeName,
               branch := branch, changeType := statusToChangeType c,
               uncommitted := if uncommitted then some true else none,
               hasUncommittedOnTop := none }) ∧
    (statusToChangeType 'A' = ChangeType.added ∧
      statusToChangeType 'D' = ChangeType.deleted ∧
      statusToChangeType 'M' = ChangeType.modified ∧
      statusToChangeType 'R' = ChangeType.modified ∧
      statusToChangeType 'C' = ChangeType.modified) ∧
    (∀ line, matchDiffLine line = none →
      lineToRecord worktreeName branch uncommitted line = none) ∧
    (∀ output : String, parseGitDiffOutput output worktreeName branch uncommitted =
      ((splitLines (jsTrim output.data)).filter (fun l => 0 < l.length)).filterMap
        (lineToRecord worktreeName branch uncommitted)) := by
  refine ⟨?_, ⟨rfl, rfl, rfl, rfl, rfl⟩, ?_, fun _ => rfl⟩
  · intro c path h1 h2 h3
    have h2' : path.isEmpty = false := by
      simpa [List.isEmpty_iff] using h2
    simp [lineToRecord, matchDiffLine, h1, h2', h3]
  · intro line hm
    simp [lineToRecord, hm]

/-- Witness for the amended C4 at a concrete input: the line `A<tab>f.ts`
yields an Added record. -/
theorem parseGitDiffOutput_letter_mapping_witness :
    lineToRecord "wt1" "feat" false ('A' :: '\t' :: "f.ts".data) =
      some { relativePath := String.mk "f.ts".data, worktreeName := "wt1",
             branch := "feat", changeType := statusToChangeType 'A',
             uncommitted := if false then some true else none,
             hasUncommittedOnTop := none } :=
  (parseGitDiffOutput_letter_mapping "wt1" "feat" false).1 'A' "f.ts".data
    (by decide) (by decide) (by decide)

/-- `Worktree` (src/types.ts). -/
structure Worktree where
  path : String
  branch : String
  isMainWorktree : Bool
deriving DecidableEq, Repr

/-- Splitting on the regular expression `\r?\n\r?\n`: any of the four
newline-pair spellings separates two blocks. -/
def splitBlocksAux : List Char → List Char → List (List Char)
  | [], acc => [acc.reverse]
  | '\r' :: '\n' :: '\r' :: '\n' :: rest, acc => acc.reverse :: splitBlocksAux rest []
  | '\r' :: '\n' :: '\n' :: rest, acc => acc.reverse :: splitBlocksAux rest []
  | '\n' :: '\r' :: '\n' :: rest, acc => acc.reverse :: splitBlocksAux rest []
  | '\n' :: '\n' :: rest, acc => acc.reverse :: splitBlocksAux rest []
  | c :: rest, acc => splitBlocksAux rest (c :: acc)

/-- JavaScript `split(/\r?\n\r?\n/)`. -/
def splitBlocks (l : List Char) : List (List Char) :=
  splitBlocksAux l []

/-- JavaScript `String.prototype.replace` with a plain-string pattern and an
empty replacement: remove the first occurrence of the pattern. -/
def removeFirst (pat : List Char) : List Char → List Char
  | [] => []
  | c :: rest =>
    if pat.isPrefixOf (c :: rest) then (c :: rest).drop pat.length
    else c :: removeFirst pat rest

/-- The per-block line loop of `parseWorktreeList` (src/unnamed/part_002,
lines 175-183), folded over the block's lines.  State: (worktreePath, branch,
isMainWorktree), initially ("", "", false); later lines overwrite earlier
ones. -/
def parseBlockFields (lines : List (List Char)) : List Char × List Char × Bool :=
  lines.foldl (fun st line =>
    if ("worktree ".data).isPrefixOf line then (line.drop 9, st.2.1, st.2.2)
    else if ("branch ".data).isPrefixOf line then
      (st.1, removeFirst ("refs/heads/".data) (line.drop 7), st.2.2)
    else if line == "bare".data then (st.1, st.2.1, true)
    else st) ([], [], false)

/-- One block of `parseWorktreeList` (src/unnamed/part_002, lines 167-197):
skip whitespace-only blocks and blocks without a `worktree ` line; a block is
main when it has a `bare` line or its resolved path equals the resolved
workspace root.  `path.resolve` depends on the process working directory, so
the parser is embedded relative to an abstract `resolve` function. -/
def parseWorktreeBlock (resolve : String → String) (workspaceRoot : String)
    (block : List Char) : Option Worktree :=
  if (jsTrim block).isEmpty then none
  else
    let st := parseBlockFields (splitLines block)
    if st.1.isEmpty then none
    else
      some { path := String.mk st.1,
             branch := if st.2.1.isEmpty then "HEAD" else String.mk st.2.1,
             isMainWorktree :=
               st.2.2 || (resolve (String.mk st.1) == resolve workspaceRoot) }

/-- `parseWorktreeList` (src/unnamed/part_002, lines 163-200). -/
def parseWorktreeList (resolve : String → String) (output workspaceRoot : String) :
    List Worktree :=
  (splitBlocks (jsTrim output.data)).filterMap
    (parseWorktreeBlock resolve workspaceRoot)

/-- C6 counterexample: the non-empty listing `worktree /a` parsed against
workspace root `/b` yields one worktree and zero main worktrees, not exactly
one. -/
theorem parseWorktreeList_no_main_counterexample :
    (parseWorktreeList id "worktree /a" "/b").length = 1 ∧
      (parseWorktreeList id "worktree /a" "/b").countP
        (fun wt => wt.isMainWorktree) = 0 := by
  constructor <;> rfl

/-- C6 amended: a parsed worktree is flagged main exactly when its block has a
`bare` line or its resolved path equals the resolved workspace root; the
returned sequence contains one entry per block that survives the two skip
rules, so the number of main worktrees equals the number of such blocks
(which need not be one). -/
theorem parseWorktreeList_main_characterization (resolve : String → String)
    (output workspaceRoot : String) :
    (∀ block wt, parseWorktreeBlock resolve workspaceRoot block = some wt →
      wt.isMainWorktree =
        ((parseBlockFields (splitLines block)).2.2 ||
          (resolve (String.mk (parseBlockFields (splitLines block)).1) ==
            resolve workspaceRoot))) ∧
    (∀ wt, wt ∈ parseWorktreeList resolve output workspaceRoot →
      ∃ block ∈ splitBlocks (jsTrim output.data),
        parseWorktreeBlock resolve workspaceRoot block = some wt) ∧
    parseWorktreeList resolve output workspaceRoot =
      (splitBlocks (jsTrim output.data)).filterMap
        (parseWorktreeBlock resolve workspaceRoot) := by
  refine ⟨?_, ?_, rfl⟩
  · intro block wt h
    unfold parseWorktreeBlock at h
    by_cases h1 : (jsTrim block).isEmpty
    · simp [h1] at h
    · simp only [h1, Bool.false_eq_true, if_false] at h
      by_cases h2 : (parseBlockFields (splitLines block)).1.isEmpty
      · simp [h2] at h
      · simp only [h2, Bool.false_eq_true, if_false, Option.some.injEq] at h
        rw [← h]
  · intro wt hwt
    exact List.mem_filterMap.mp hwt

/-- Witness for the amended C6 at a concrete input: the block `worktree /a`
against workspace root `/a` parses to a worktree whose main flag matches the
bare-or-resolved-path condition. -/
theorem parseWorktreeList_main_characterization_witness :
    ({ path := "/a", branch := "HEAD", isMainWorktree := true } : Worktree).isMainWorktree =
      ((parseBlockFields (splitLines "worktree /a".data)).2.2 ||
        (id (String.mk (parseBlockFields (splitLines "worktree /a".data)).1) ==
          id "/a")) :=
  (parseWorktreeList_main_characterization id "" "/a").1 ("worktree /a".data)
    { path := "/a", branch := "HEAD", isMainWorktree := true } rfl

/-- Mark the first record carrying the given path: set its
`hasUncommittedOnTop` to `true` and keep everything else. -/
def markFirst (p : String) : List TrackedFile → List TrackedFile
  | [] => []
  | f :: rest =>
    if f.relativePath == p then
      { f with hasUncommittedOnTop := some true } :: rest
    else f :: markFirst p rest

/-- The in-place mutation `existingCommitted.hasUncommittedOnTop = true`
(src/unnamed/part_003, line 302): `committedPathsMap` is built with
`new Map(allFiles.map(f => [f.relativePath, f]))`, which keeps the last entry
per key, so the mutated object is the last committed record with that path. -/
def markLast (l : List TrackedFile) (p : String) : List TrackedFile :=
  (markFirst p l.reverse).reverse

/-- One iteration of the uncommitted-merge loop of `scanWorktree`
(src/unnamed/part_003, lines 293-307).  State: (committed records so far,
appended purely-uncommitted records, seen paths).  A seen path is skipped; a
path with a committed baseline marks that baseline; any other path appends the
record. -/
def mergeStep (committedPaths : List String)
    (st : List TrackedFile × List TrackedFile × List String)
    (file : TrackedFile) : List TrackedFile × List TrackedFile × List String :=
  if st.2.2.contains file.relativePath then st
  else if committedPaths.contains file.relativePath then
    (markLast st.1 file.relativePath, st.2.1, file.relativePath :: st.2.2)
  else (st.1, st.2.1 ++ [file], file.relativePath :: st.2.2)

/-- The uncommitted-merge step of `scanWorktree` (src/unnamed/part_003, lines
289-307): fold the concatenation `[...uncommittedFiles, ...stagedFiles,
...untrackedFiles]` through `mergeStep`; the final record list is the
(possibly marked) committed records followed by the appended ones. -/
def scanMergeUncommitted (committedFiles uncommittedFiles stagedFiles
    untrackedFiles : List TrackedFile) : List TrackedFile :=
  let st := (uncommittedFiles ++ stagedFiles ++ untrackedFiles).foldl
    (mergeStep (committedFiles.map (fun f => f.relativePath)))
    (committedFiles, [], [])
  st.1 ++ st.2.1

/-- First-occurrence de-duplication by relative path relative to an initial
seen-set, following the spec's wording for §4.5 step 3. -/
def dedupByPath (seen : List String) : List TrackedFile → List TrackedFile
  | [] => []
  | f :: rest =>
    if seen.contains f.relativePath then dedupByPath seen rest
    else f :: dedupByPath (f.relativePath :: seen) rest

/-- Spec-side description of the uncommitted merge (§4.5 step 3): de-duplicate
the prioritized concatenation by path on first occurrence; every surviving
path with a committed baseline record marks that baseline's
`hasUncommittedOnTop` instead of adding a second record; every other survivor
is appended as a new purely-uncommitted record. -/
def specMergeUncommitted (committedFiles uncommitted : List TrackedFile) :
    List TrackedFile :=
  let committedPaths := committedFiles.map (fun f => f.relativePath)
  let survivors := dedupByPath [] uncommitted
  (survivors.filter (fun f => committedPaths.contains f.relativePath)).foldl
      (fun acc f => markLast acc f.relativePath) committedFiles
    ++ survivors.filter (fun f => !(committedPaths.contains f.relativePath))

theorem mergeStep_foldl (cpaths : List String) (rest : List TrackedFile)
    (comm app : List TrackedFile) (seen : List String) :
    (rest.foldl (mergeStep cpaths) (comm, app, seen)).1 ++
        (rest.foldl (mergeStep cpaths) (comm, app, seen)).2.1 =
      ((dedupByPath seen rest).filter
          (fun f => cpaths.contains f.relativePath)).foldl
        (fun acc f => markLast acc f.relativePath) comm
      ++ app ++
      (dedupByPath seen rest).filter (fun f => !(cpaths.contains f.relativePath)) := by
  induction rest generalizing comm app seen with
  | nil => simp [dedupByPath]
  | cons f rest ih =>
    by_cases hseen : f.relativePath ∈ seen
    · rw [List.foldl_cons]
      have hstep : mergeStep cpaths (comm, app, seen) f = (comm, app, seen) := by
        simp [mergeStep, hseen]
      rw [hstep]
      rw [ih comm app seen]
      simp [dedupByPath, hseen]
    · by_cases hc : f.relativePath ∈ cpaths
      · rw [List.foldl_cons]
        have hstep : mergeStep cpaths (comm, app, seen) f =
            (markLast comm f.relativePath, app, f.relativePath :: seen) := by
          simp [mergeStep, hseen, hc]
        rw [hstep]
        rw [ih (markLast comm f.relativePath) app (f.relativePath :: seen)]
        have hdedup : dedupByPath seen (f :: rest) =
            f :: dedupByPath (f.relativePath :: seen) rest := by
          simp [dedupByPath, hseen]
        rw [hdedup, List.filter_cons_of_pos (by simpa using hc),
          List.filter_cons_of_neg (by simpa using hc), List.foldl_cons]
      · rw [List.foldl_cons]
        have hstep : mergeStep cpaths (comm, app, seen) f =
            (comm, app ++ [f], f.relativePath :: seen) := by
          simp [mergeStep, hseen, hc]
        rw [hstep]
        rw [ih comm (app ++ [f]) (f.relativePath :: seen)]
        have hdedup : dedupByPath seen (f :: rest) =
            f :: dedupByPath (f.relativePath :: seen) rest := by
          simp [dedupByPath, hseen]
        rw [hdedup, List.filter_cons_of_neg (by simpa using hc),
          List.filter_cons_of_pos (by simpa using hc)]
        simp [List.append_assoc]

/-- C2: the merge loop of `scanWorktree` processes each relative path at most
once, keeping whichever of the unstaged/staged/untracked sources listed it
first, and for each surviving path either marks the existing committed
baseline record (adding nothing) or appends the single purely-uncommitted
record — the loop equals the spec-side description on the prioritized
concatenation. -/
theorem scanMergeUncommitted_eq_spec (committedFiles uncommittedFiles
    stagedFiles untrackedFiles : List TrackedFile) :
    scanMergeUncommitted committedFiles uncommittedFiles stagedFiles
        untrackedFiles =
      specMergeUncommitted committedFiles
        (uncommittedFiles ++ stagedFiles ++ untrackedFiles) := by
  unfold scanMergeUncommitted specMergeUncommitted
  have h := mergeStep_foldl (committedFiles.map (fun f => f.relativePath))
    (uncommittedFiles ++ stagedFiles ++ untrackedFiles) committedFiles [] []
  simpa using h

/-- The mutable resolution state of `WorktreeFileTrackerService`
(src/unnamed/part_003, lines 27-28): whether scanning is paused and which
invalid branch name has already been warned about. -/
structure TrackerState where
  scanningPaused : Bool
  invalidBranchWarningShown : Option String
deriving DecidableEq, Repr

/-- `resetScanningState` (src/unnamed/part_003, lines 41-44), wired to
comparison-branch configuration changes in src/commands.ts. -/
def resetScanningState (_ : TrackerState) : TrackerState :=
  { scanningPaused := false, invalidBranchWarningShown := none }

/-- The validation tail of `getComparisonBranch` (src/unnamed/part_003, lines
180-207): given the resolved name and whether that branch exists, returns the
new state, whether a warning is surfaced, and the returned branch (`none`
models the `null` return). -/
def resolveValidate (s : TrackerState) (resolved : String)
    (branchExists : Bool) : TrackerState × Bool × Option String :=
  if branchExists then
    ({ scanningPaused := false, invalidBranchWarningShown := none },
      false, some resolved)
  else if s.invalidBranchWarningShown == some resolved then
    ({ scanningPaused := true,
       invalidBranchWarningShown := s.invalidBranchWarningShown }, false, none)
  else
    ({ scanningPaused := true, invalidBranchWarningShown := some resolved },
      true, none)

/-- The per-worktree loop body of one `scanAllWorktrees` cycle: every
`scanWorktree` call resolves the comparison branch once
(src/unnamed/part_003, lines 212-223 and 339-345).  Accumulates (state,
warnings surfaced, resolutions that returned a branch). -/
def scanLoop (resolved : String) (branchExists : Bool) :
    Nat → TrackerState × Nat × Nat → TrackerState × Nat × Nat
  | 0, acc => acc
  | n + 1, acc =>
    let out := resolveValidate acc.1 resolved branchExists
    scanLoop resolved branchExists n
      (out.1, acc.2.1 + (if out.2.1 then 1 else 0),
        acc.2.2 + (if out.2.2.isSome then 1 else 0))

/-- One `scanAllWorktrees` invocation (src/unnamed/part_003, lines 319-331):
skipped entirely while `scanningPaused`, otherwise one resolution per agent
worktree. -/
def scanAllCycle (s : TrackerState) (resolved : String) (branchExists : Bool)
    (worktreeCount : Nat) : TrackerState × Nat × Nat :=
  if s.scanningPaused then (s, 0, 0)
  else scanLoop resolved branchExists worktreeCount (s, 0, 0)

/-- The tracker-level events that touch the pause state: a scan cycle (with
its deterministic per-cycle resolution result) or a comparison-branch
configuration change (which calls `resetScanningState`; src/commands.ts,
lines 289-295). -/
inductive TrackerEvent where
  | scanAll (resolved : String) (branchExists : Bool) (worktreeCount : Nat)
  | configChange
deriving DecidableEq, Repr

def trackerStep (s : TrackerState) : TrackerEvent → TrackerState × Nat × Nat
  | TrackerEvent.scanAll r v n => scanAllCycle s r v n
  | TrackerEvent.configChange => (resetScanningState s, 0, 0)

/-- Run a list of events, totalling warnings and successful resolutions. -/
def runTracker (s : TrackerState) : List TrackerEvent → TrackerState × Nat × Nat
  | [] => (s, 0, 0)
  | e :: es =>
    let out := trackerStep s e
    let rest := runTracker out.1 es
    (rest.1, out.2.1 + rest.2.1, out.2.2 + rest.2.2)

theorem scanLoop_stable (r : String) (n : Nat) (w c : Nat) :
    scanLoop r false n
        ({ scanningPaused := true, invalidBranchWarningShown := some r }, w, c) =
      ({ scanningPaused := true, invalidBranchWarningShown := some r }, w, c) := by
  induction n generalizing w c with
  | zero => rfl
  | succ m ih =>
    show scanLoop r false m _ = _
    simpa [resolveValidate] using ih w c

/-- C7: an invalid comparison branch pauses the tracker and yields no branch;
a valid resolution unpauses it; while paused, any run of events without a
configuration change performs no scan and surfaces no warning and leaves the
state untouched; and an unpaused cycle against an invalid branch pauses,
scans nothing, and surfaces exactly one warning — none at all when the same
invalid name has already been warned about. -/
theorem comparisonBranch_pause_once :
    (∀ (s : TrackerState) (r : String),
      (resolveValidate s r false).1.scanningPaused = true ∧
        (resolveValidate s r false).2.2 = none) ∧
    (∀ (s : TrackerState) (r : String),
      resolveValidate s r true =
        ({ scanningPaused := false, invalidBranchWarningShown := none },
          false, some r)) ∧
    (∀ s : TrackerState, s.scanningPaused = true →
      ∀ es : List TrackerEvent,
        (∀ e ∈ es, e ≠ TrackerEvent.configChange) →
        runTracker s es = (s, 0, 0)) ∧
    (∀ s : TrackerState, s.scanningPaused = false → ∀ (r : String) (n : Nat),
      0 < n →
      scanAllCycle s r false n =
        ({ scanningPaused := true, invalidBranchWarningShown := some r },
          if s.invalidBranchWarningShown == some r then 0 else 1, 0)) := by
  refine ⟨?_, ?_, ?_, ?_⟩
  · intro s r
    by_cases h : s.invalidBranchWarningShown == some r <;>
      simp [resolveValidate, h]
  · intro s r
    rfl
  · intro s hs es
    induction es generalizing s with
    | nil => intro _; rfl
    | cons e es ih =>
      intro hall
      cases e with
      | scanAll r v n =>
        have hstep : trackerStep s (TrackerEvent.scanAll r v n) = (s, 0, 0) := by
          simp [trackerStep, scanAllCycle, hs]
        show (let out := trackerStep s (TrackerEvent.scanAll r v n)
              let rest := runTracker out.1 es
              (rest.1, out.2.1 + rest.2.1, out.2.2 + rest.2.2)) = (s, 0, 0)
        rw [hstep]
        have hrest := ih s hs (fun e he => hall e (List.mem_cons_of_mem _ he))
        simp [hrest]
      | configChange =>
        exact absurd rfl (hall TrackerEvent.configChange (List.mem_cons_self _ _))
  · intro s hs r n hn
    cases n with
    | zero => omega
    | succ m =>
      unfold scanAllCycle
      rw [if_neg (by simp [hs])]
      by_cases h : s.invalidBranchWarningShown == some r
      · have h' : s.invalidBranchWarningShown = some r := by simpa using h
        show scanLoop r false m _ = _
        simp only [resolveValidate, Bool.false_eq_true, if_false, h, if_true, h']
        simpa [h] using scanLoop_stable r m 0 0
      · show scanLoop r false m _ = _
        simp only [resolveValidate, Bool.false_eq_true, if_false, h, Option.isSome_none]
        simpa [h] using scanLoop_stable r m 1 0

/-- Witness for C7 at concrete inputs: a fresh tracker cycling over three
worktrees with the invalid branch "develop" pauses and warns exactly once;
afterwards a scan event is entirely suppressed. -/
theorem comparisonBranch_pause_once_witness :
    scanAllCycle { scanningPaused := false, invalidBranchWarningShown := none }
        "develop" false 3 =
      ({ scanningPaused := true, invalidBranchWarningShown := some "develop" },
        1, 0) ∧
    runTracker
        { scanningPaused := true, invalidBranchWarningShown := some "develop" }
        [TrackerEvent.scanAll "develop" false 3] =
      ({ scanningPaused := true, invalidBranchWarningShown := some "develop" },
        0, 0) := by
  constructor
  · have h := comparisonBranch_pause_once.2.2.2
      { scanningPaused := false, invalidBranchWarningShown := none }
      rfl "develop" 3 (by decide)
    simpa using h
  · exact comparisonBranch_pause_once.2.2.1
      { scanningPaused := true, invalidBranchWarningShown := some "develop" }
      rfl [TrackerEvent.scanAll "develop" false 3]
      (by intro e he; simp at he; subst he; intro hcontra; cases hcontra)

/-- `STATE_VERSION` (src/unnamed/part_003, line 16). -/
def STATE_VERSION : String := "1.0"

/-- `TrackedFilesState` (src/types.ts): the persisted snapshot.  `files` is
optional because `loadState` checks its presence before adopting it. -/
structure TrackedFilesState where
  version : String
  lastUpdated : String
  files : Option AggMap
deriving Repr

/-- The possible outcomes of reading the state file in `loadState`. -/
inductive StoredContent where
  | missing
  | corrupt
  | snapshot (s : TrackedFilesState)

/-- `saveState` (src/unnamed/part_003, lines 79-99): the snapshot written for
the current in-memory map carries the engine version and a fresh timestamp. -/
def saveState (trackedFiles : AggMap) (now : String) : TrackedFilesState :=
  { version := STATE_VERSION, lastUpdated := now, files := some trackedFiles }

/-- `loadState` (src/unnamed/part_003, lines 56-74): adopt the stored files
when the version matches and the field is present; keep the current in-memory
map when the file is missing or that check fails; reset to empty only when
reading or parsing throws (the catch branch). -/
def loadState (current : AggMap) (stored : StoredContent) : AggMap :=
  match stored with
  | StoredContent.missing => current
  | StoredContent.corrupt => []
  | StoredContent.snapshot s =>
    if s.version == STATE_VERSION then
      match s.files with
      | some files => files
      | none => current
    else current

theorem recordFieldsEq_refl (x : TrackedFile) : recordFieldsEq x x = true := by
  simp [recordFieldsEq]

theorem trackedFilesEqual_refl (a : List TrackedFile) :
    trackedFilesEqual a a = true := by
  unfold trackedFilesEqual
  simp only [beq_self_eq_true, Bool.true_and]
  induction a with
  | nil => rfl
  | cons x a ih => simpa [recordFieldsEq_refl] using ih

/-- C8 counterexample: loading a version-mismatched snapshot into a tracker
whose in-memory map is non-empty keeps that map unchanged — it does not yield
an empty map. -/
theorem loadState_version_mismatch_counterexample :
    loadState [("src/a.ts", [exComRec])]
        (StoredContent.snapshot
          { version := "0.9", lastUpdated := "2024-01-01",
            files := some [("src/b.ts", [exUncRec])] }) =
      [("src/a.ts", [exComRec])] ∧
      [("src/a.ts", [exComRec])] ≠ ([] : AggMap) := by
  constructor
  · rfl
  · simp

/-- C8 amended: saving and then loading a snapshot reproduces the saved map
exactly (hence also under the positional record-equality rule: the
generational diff between the saved and loaded maps is empty); a version
mismatch on load leaves the in-memory map unchanged — the empty map at the
only call site, a freshly constructed tracker — rather than resetting it;
only a read or parse error resets the map to empty. -/
theorem state_save_load_roundtrip :
    (∀ (trackedFiles : AggMap) (now : String) (current : AggMap),
      loadState current (StoredContent.snapshot (saveState trackedFiles now)) =
        trackedFiles) ∧
    (∀ (trackedFiles : AggMap) (now : String) (current : AggMap),
      keysNodup trackedFiles →
      getChangedPaths trackedFiles
          (loadState current
            (StoredContent.snapshot (saveState trackedFiles now))) = []) ∧
    (∀ (current : AggMap) (s : TrackedFilesState),
      s.version ≠ STATE_VERSION →
      loadState current (StoredContent.snapshot s) = current) ∧
    (∀ current : AggMap, loadState current StoredContent.corrupt = []) := by
  have hround : ∀ (trackedFiles : AggMap) (now : String) (current : AggMap),
      loadState current (StoredContent.snapshot (saveState trackedFiles now)) =
        trackedFiles := by
    intro m now current
    rfl
  refine ⟨hround, ?_, ?_, fun _ => rfl⟩
  · intro m now current hnd
    rw [hround m now current]
    unfold getChangedPaths
    rw [List.append_eq_nil]
    constructor
    · rw [List.map_eq_nil_iff, List.filter_eq_nil_iff]
      intro e he
      have hv : mapGet m e.1 = some e.2 := mapGet_eq_some_of_mem _ _ _ hnd he
      simp [hv, trackedFilesEqual_refl]
    · rw [List.map_eq_nil_iff, List.filter_eq_nil_iff]
      intro e he
      have h1 : mapHas m e.1 = true := mapHas_of_mem _ _ e.2 he
      simp [h1]
  · intro current s hver
    show (if (s.version == STATE_VERSION) = true then
        match s.files with
        | some files => files
        | none => current
      else current) = current
    rw [if_neg (by simpa using hver)]

/-- Witness for the amended C8 at concrete inputs: a one-entry map survives
the save/load round trip, and a mismatched version leaves the current map in
place. -/
theorem state_save_load_roundtrip_witness :
    loadState []
        (StoredContent.snapshot
          (saveState [("src/a.ts", [exComRec])] "2024-01-01")) =
      [("src/a.ts", [exComRec])] ∧
    loadState [("src/a.ts", [exComRec])]
        (StoredContent.snapshot
          { version := "0.8", lastUpdated := "2024-01-01", files := some [] }) =
      [("src/a.ts", [exComRec])] :=
  ⟨state_save_load_roundtrip.1 [("src/a.ts", [exComRec])] "2024-01-01" [],
   state_save_load_roundtrip.2.2.1 [("src/a.ts", [exComRec])]
     { version := "0.8", lastUpdated := "2024-01-01", files := some [] }
     (by decide)⟩

end AWT
